import Mathlib

/-!
Verification of the template-instantiation script (`scripts/setup.py`) and the
example block validator (`src/example/validation.py`) of the
ethereum-protocol-specs repository, via a shallow embedding in Lean 4.

Modelling conventions:
* File contents are `String`s; Python `str.replace` is modelled over `List Char`
  by `pyReplace` (literal, non-regex, all occurrences, left to right).
* Python `str.lower` is modelled character-wise by `charLower` on the fragment
  that the package-name sanitization is sensitive to: the ASCII letters, plus
  the one character outside `[a-zA-Z0-9_-]` whose simple lowercase lands inside
  the class (`U+212A` KELVIN SIGN, which Python lowercases to `k`).  Other
  characters are left fixed; Python's full case mapping can also expand one
  character into several (`U+0130` lowers to `i` + `U+0307`), which no
  character-wise model represents, so theorems about arbitrary strings are
  stated for ASCII content.
* Python `str.strip` is modelled by `pyStrip` over the ASCII whitespace set.
* The filesystem is an association list from paths to file entries; an entry is
  either readable text (`Entry.ok`) or a file whose read raises an I/O or
  decoding error (`Entry.err`); an absent key is a missing file.
* `input()` is modelled by a list of responses, consumed in prompt order;
  a `KeyboardInterrupt` during input collection is modelled by a flag.
* `sys.exit`/process termination is modelled by returning the exit code
  together with the final filesystem.
-/

/-- Character-wise fragment of Python `str.lower`: maps `A`..`Z`
(codepoints 65..90) to `a`..`z` (codepoints 97..122) and the KELVIN SIGN
`U+212A` (codepoint 8490) to `k` — the one non-ASCII character Python lowers
into `[a-zA-Z0-9_-]` — and leaves every other character fixed. -/
def charLower (c : Char) : Char :=
  if 65 ≤ c.toNat ∧ c.toNat ≤ 90 then Char.ofNat (c.toNat + 32)
  else if c.toNat = 8490 then 'k'
  else c

/-- Membership in the regex character class `[a-zA-Z0-9_-]` of
`re.sub(r'[^a-zA-Z0-9_-]', '-', ...)` in `get_user_input`, by codepoint. -/
def isIdentChar (c : Char) : Bool :=
  (97 ≤ c.toNat && c.toNat ≤ 122) || (65 ≤ c.toNat && c.toNat ≤ 90) ||
    (48 ≤ c.toNat && c.toNat ≤ 57) || c.toNat == 95 || c.toNat == 45

/-- One character of the `re.sub` pass: a character outside `[a-zA-Z0-9_-]`
becomes `'-'`. -/
def sanitizeChar (c : Char) : Char :=
  if isIdentChar c then c else '-'

/-- The default for `package_name` in `get_user_input`:
`re.sub(r'[^a-zA-Z0-9_-]', '-', project_name.lower())` — lowercase first,
then replace every character outside the class with `'-'`. -/
def defaultPackageName (project_name : String) : String :=
  ⟨(project_name.data.map charLower).map sanitizeChar⟩

/-- The sanitization as the spec words it: first map every character outside
`[a-zA-Z0-9_-]` to `'-'`, then lowercase the result.  Stated from the spec, to
be compared with `defaultPackageName`, which follows the source. -/
def spec_defaultPackageName (project_name : String) : String :=
  ⟨(project_name.data.map sanitizeChar).map charLower⟩

/-- ASCII whitespace, the characters removed by Python `str.strip`. -/
def isStripChar (c : Char) : Bool :=
  c == ' ' || c == '\t' || c == '\n' || c == '\r' || c == '\x0b' || c == '\x0c'

/-- Python `str.strip()`: drop leading and trailing whitespace. -/
def pyStrip (s : String) : String :=
  ⟨((s.data.dropWhile isStripChar).reverse.dropWhile isStripChar).reverse⟩

/-- Python `a or b` on strings: `b` when `a` is empty (falsy), else `a`. -/
def pyOr (a b : String) : String :=
  if a = "" then b else a

/-- Fuel-driven core of Python `str.replace` over character lists.  At each
position, if the (non-empty) pattern `old` matches, emit `new` and skip the
match; otherwise keep one character.  An empty `old` matches at every position
and at the end, as in Python.  `fuel ≥ s.length` makes the fuel irrelevant. -/
def pyReplaceAux (old new : List Char) : Nat → List Char → List Char
  | _, [] => if old.isEmpty then new else []
  | 0, s => s
  | fuel + 1, c :: rest =>
      if old.isEmpty then
        new ++ c :: pyReplaceAux old new fuel rest
      else if old.isPrefixOf (c :: rest) then
        new ++ pyReplaceAux old new fuel (List.drop (old.length - 1) rest)
      else
        c :: pyReplaceAux old new fuel rest

/-- Python `s.replace(old, new)`: literal (non-regex) replacement of every
occurrence of `old` in `s` by `new`, scanning left to right. -/
def pyReplace (s old new : String) : String :=
  ⟨pyReplaceAux old.data new.data s.data.length s.data⟩

/-- Python `sub in s`: literal substring containment. -/
def containsSub (pat : List Char) : List Char → Bool
  | [] => pat.isEmpty
  | c :: rest => pat.isPrefixOf (c :: rest) || containsSub pat rest

/-- Python `sub in s` on strings. -/
def strContains (s pat : String) : Bool :=
  containsSub pat.data s.data

/-- The configuration collected by `get_user_input`: six string-valued keys. -/
structure Config where
  project_name : String
  package_name : String
  github_org : String
  author_name : String
  author_email : String
  year : String
deriving DecidableEq, Repr

/-- `get_user_input`: consume the six prompt responses in order; an empty
trimmed response falls back to the stated default.  `cwdName` stands for
`Path.cwd().name` and `currentYear` for `datetime.now().year`. -/
def get_user_input (responses : List String) (cwdName : String)
    (currentYear : Nat) : Config :=
  let project_name := pyOr (pyStrip (responses.getD 0 "")) cwdName
  let package_name :=
    pyOr (pyStrip (responses.getD 1 "")) (defaultPackageName project_name)
  let github_org := pyOr (pyStrip (responses.getD 2 "")) "ethereum"
  let author_name := pyOr (pyStrip (responses.getD 3 "")) "Ethereum Foundation"
  let author_email :=
    pyOr (pyStrip (responses.getD 4 "")) "security@ethereum.org"
  let year := pyOr (pyStrip (responses.getD 5 "")) (toString currentYear)
  ⟨project_name, package_name, github_org, author_name, author_email, year⟩

/-- The `replacements` dict of `setup_project`, as the ordered list of its
(token, replacement) pairs (Python dicts preserve insertion order). -/
def buildReplacements (config : Config) : List (String × String) :=
  [("{PROJECT_NAME}", config.project_name),
   ("{PACKAGE_NAME}", config.package_name),
   ("{GITHUB_ORG}", config.github_org),
   ("{AUTHOR_NAME}", config.author_name),
   ("{AUTHOR_EMAIL}", config.author_email),
   ("{YEAR}", config.year),
   ("ethereum-protocol-specs", config.package_name),
   ("ethereum-specs", config.package_name),
   ("Your Name", config.author_name),
   ("your.email@example.com", config.author_email),
   ("Ethereum Foundation", config.author_name),
   ("2025", config.year),
   ("2024", config.year),
   ("ethereum/ethereum-protocol-specs",
     config.github_org ++ "/" ++ config.package_name),
   ("https://github.com/ethereum/...",
     "https://github.com/" ++ config.github_org ++ "/" ++ config.package_name)]

/-- The loop body of `replace_in_file`: apply each (old, new) pair in order to
the same in-memory buffer. -/
def applyReplacements : String → List (String × String) → String
  | content, [] => content
  | content, (old, new) :: rest =>
      applyReplacements (pyReplace content old new) rest

/-- A file on disk: readable text, or a file whose read (or write) raises an
I/O or decoding error carrying a message. -/
inductive Entry where
  | ok (content : String)
  | err (msg : String)
deriving DecidableEq, Repr

/-- The filesystem: an association list from relative paths to entries; a path
not in the list is a missing file. -/
def FS := List (String × Entry)

instance : DecidableEq FS := by
  unfold FS; infer_instance

/-- `Path.exists` / `read_text`: the entry at a path, if any. -/
def fsGet : FS → String → Option Entry
  | [], _ => none
  | (k, e) :: rest, p => if k = p then some e else fsGet rest p

/-- `write_text`: overwrite the entry at a path (a no-op on a missing path;
the script only writes to paths it has just read). -/
def fsSet : FS → String → Entry → FS
  | [], _, _ => []
  | (k, e) :: rest, p, e' => (k, if k = p then e' else e) :: fsSet rest p e'

/-- Per-file outcome of the main pass, the spec's Run Report entries. -/
inductive Outcome where
  | updated
  | missing
  | failed (msg : String)
deriving DecidableEq, Repr

/-- `replace_in_file` guarded by the `full_path.exists()` check of
`setup_project`: a missing path is reported and skipped; a raising read is
caught (`except Exception`) and reported as a failure; otherwise the file is
rewritten with every replacement applied. -/
def processFile (fs : FS) (replacements : List (String × String))
    (p : String) : Outcome × FS :=
  match fsGet fs p with
  | none => (.missing, fs)
  | some (.err m) => (.failed m, fs)
  | some (.ok c) =>
      (.updated, fsSet fs p (.ok (applyReplacements c replacements)))

/-- The main loop of `setup_project` over `files_to_update`: process each path
in order, accumulating the per-file outcome; no outcome halts the loop. -/
def runMainPass (replacements : List (String × String)) :
    List String → FS → List (String × Outcome) × FS
  | [], fs => ([], fs)
  | p :: rest, fs =>
      let step := processFile fs replacements p
      let next := runMainPass replacements rest step.2
      ((p, step.1) :: next.1, next.2)

/-- `files_to_update` in `setup_project`. -/
def files_to_update : List String :=
  ["pyproject.toml", "mkdocs.yml", "README.md", "LICENSE", "docs/index.md",
   ".github/ISSUE_TEMPLATE/bug_report.md",
   ".github/ISSUE_TEMPLATE/feature_request.md"]

/-- The file list of the second (`<repository-url>`) pass. -/
def urlFiles : List String := ["README.md", "docs/index.md"]

/-- The second pass of `setup_project`: for each existing file of `urlFiles`,
replace the sentinel `<repository-url>` with the composed URL.  This pass has
no `try`: a raising read aborts it, returning the error message (propagated to
`main`'s generic handler). -/
def runUrlPass (url : String) : List String → FS → FS × Option String
  | [], fs => (fs, none)
  | p :: rest, fs =>
      match fsGet fs p with
      | none => runUrlPass url rest fs
      | some (.err m) => (fs, some m)
      | some (.ok c) =>
          runUrlPass url rest
            (fsSet fs p (.ok (pyReplace c "<repository-url>" url)))

/-- `setup_project`: the main pass over `files_to_update`, then the sentinel
URL pass; returns the final filesystem and the message of an uncaught
exception, if one was raised. -/
def setup_project (config : Config) (fs : FS) : FS × Option String :=
  let main_pass := runMainPass (buildReplacements config) files_to_update fs
  runUrlPass
    ("https://github.com/" ++ config.github_org ++ "/" ++ config.package_name)
    urlFiles main_pass.2

/-- The affirmative confirmation answers of `main`: `confirm in ['', 'y', 'yes']`. -/
def isAffirmative (confirm : String) : Bool :=
  confirm == "" || confirm == "y" || confirm == "yes"

/-- The confirmation answer of `main`: the seventh response (index 6),
trimmed and lowercased (`input("...").strip().lower()`). -/
def confirmAnswer (responses : List String) : String :=
  ⟨(pyStrip (responses.getD 6 "")).data.map charLower⟩

/-- `main`: precondition checks on `pyproject.toml`, input collection (the
first six responses), the confirmation gate (response index 6), then
`setup_project`; returns the process exit code and the final filesystem.
`interrupted` models a `KeyboardInterrupt` raised during input collection;
a missing `pyproject.toml` exits 1, as does an unreadable one (its uncaught
read error terminates the process with a nonzero status). -/
def mainRun (fs : FS) (interrupted : Bool) (responses : List String)
    (cwdName : String) (currentYear : Nat) : Nat × FS :=
  match fsGet fs "pyproject.toml" with
  | none => (1, fs)
  | some (.err _) => (1, fs)
  | some (.ok content) =>
      if strContains content "{PACKAGE_NAME}" = false then (1, fs)
      else if interrupted then (0, fs)
      else
        let config := get_user_input responses cwdName currentYear
        if isAffirmative (confirmAnswer responses) then
          match setup_project config fs with
          | (fs', none) => (0, fs')
          | (fs', some _) => (1, fs')
        else (0, fs)

/-- `Transaction` of `src/example/types.py`: pydantic `ge=0` integer fields
become `Nat`, `bytes` become lists of byte values. -/
structure Transaction where
  nonce : Nat
  gas_price : Nat
  gas_limit : Nat
  «to» : Option (List (Fin 256)) := none
  value : Nat
  data : List (Fin 256) := []

/-- `Block` of `src/example/types.py`; the pydantic length constraint on
`parent_hash` (exactly 32 bytes) is carried as a field. -/
structure Block where
  number : Nat
  parent_hash : List (Fin 256)
  parent_hash_len : parent_hash.length = 32
  transactions : List Transaction := []
  gas_used : Nat
  gas_limit : Nat

/-- `validate_block_gas` of `src/example/validation.py`. -/
def validate_block_gas (block : Block) : Bool :=
  block.gas_used ≤ block.gas_limit

/-- Statement helper: the outcome the main pass reports for a path, as a
function of the entry found there: a missing path is skipped, a raising read
is a failure, a readable file is updated. -/
def expectedOutcome : Option Entry → Outcome
  | none => .missing
  | some (.err m) => .failed m
  | some (.ok _) => .updated

/-- Statement helper: the effect of the main pass on one entry: readable
content gets every replacement applied; a missing or raising entry is left
untouched. -/
def procEntry (replacements : List (String × String)) :
    Option Entry → Option Entry
  | some (.ok c) => some (.ok (applyReplacements c replacements))
  | e => e

/-- Statement helper: the effect of the sentinel-URL pass on one entry:
readable content gets the single `<repository-url>` substitution; a missing
entry is left untouched. -/
def urlEntry (url : String) : Option Entry → Option Entry
  | some (.ok c) => some (.ok (pyReplace c "<repository-url>" url))
  | e => e

/-- Statement helper: whether an entry raises on read. -/
def isErrEntry : Option Entry → Bool
  | some (.err _) => true
  | _ => false

/-! ## Helper lemmas -/

theorem toNat_charOfNat (n : Nat) (h : n < 55296) : (Char.ofNat n).toNat = n := by
  unfold Char.ofNat
  rw [dif_pos (Or.inl h)]
  rfl

theorem sanitizeChar_charLower_ascii (c : Char) (hc : c.toNat < 128) :
    sanitizeChar (charLower c) = charLower (sanitizeChar c) := by
  by_cases h : 65 ≤ c.toNat ∧ c.toNat ≤ 90
  · have hlow : charLower c = Char.ofNat (c.toNat + 32) := if_pos h
    have ht : (charLower c).toNat = c.toNat + 32 := by
      rw [hlow]; exact toNat_charOfNat _ (by omega)
    have hid1 : isIdentChar (charLower c) = true := by
      simp only [isIdentChar, ht, Bool.or_eq_true, Bool.and_eq_true,
        decide_eq_true_eq, beq_iff_eq]
      omega
    have hid2 : isIdentChar c = true := by
      simp only [isIdentChar, Bool.or_eq_true, Bool.and_eq_true,
        decide_eq_true_eq, beq_iff_eq]
      omega
    simp only [sanitizeChar, hid1, hid2, if_true]
  · have hlow : charLower c = c := by
      unfold charLower
      rw [if_neg h, if_neg (by omega)]
    rw [hlow]
    cases hid : isIdentChar c
    · simp only [sanitizeChar, hid, Bool.false_eq_true, if_false]
      show ('-' : Char) = charLower '-'
      decide
    · simp only [sanitizeChar, hid, if_true]
      exact hlow.symm

theorem pyOr_ne_empty (a b : String) (hb : b ≠ "") : pyOr a b ≠ "" := by
  unfold pyOr
  split
  · exact hb
  · assumption

theorem defaultPackageName_ne_empty (s : String) (h : s ≠ "") :
    defaultPackageName s ≠ "" := by
  intro hc
  apply h
  have hd : (s.data.map charLower).map sanitizeChar = [] :=
    congrArg String.data hc
  have hnil : s.data = [] := by simpa using hd
  exact String.ext hnil

theorem toDigitsCore_length_ge (b f n : Nat) (ds : List Char) :
    ds.length ≤ (Nat.toDigitsCore b f n ds).length := by
  induction f generalizing n ds with
  | zero => simp [Nat.toDigitsCore]
  | succ f ih =>
    simp only [Nat.toDigitsCore]
    split
    · simp
    · exact le_trans (by simp) (ih (n / b) _)

theorem toDigitsCore_length_succ (b f n : Nat) (ds : List Char) :
    ds.length + 1 ≤ (Nat.toDigitsCore b (f + 1) n ds).length := by
  simp only [Nat.toDigitsCore]
  split
  · simp
  · exact le_trans (by simp) (toDigitsCore_length_ge b f (n / b) _)

theorem toString_nat_ne_empty (n : Nat) : toString n ≠ "" := by
  show Nat.repr n ≠ ""
  unfold Nat.repr
  intro h
  have hd : Nat.toDigits 10 n = [] := congrArg String.data h
  rw [Nat.toDigits] at hd
  have hlen := toDigitsCore_length_succ 10 n n []
  rw [hd] at hlen
  simp at hlen

theorem pyReplaceAux_not_contains (old new : List Char) (fuel : Nat)
    (s : List Char) (h : containsSub old s = false) :
    pyReplaceAux old new fuel s = s := by
  induction s generalizing fuel with
  | nil =>
    have hne : old.isEmpty = false := by simpa [containsSub] using h
    cases fuel <;> simp [pyReplaceAux, hne]
  | cons c rest ih =>
    rw [containsSub] at h
    have hpre : old.isPrefixOf (c :: rest) = false := by
      cases hP : old.isPrefixOf (c :: rest) <;> simp_all
    have hrest : containsSub old rest = false := by
      cases hR : containsSub old rest <;> simp_all
    have hne : old.isEmpty = false := by
      cases hO : old with
      | nil => rw [hO] at hpre; simp [List.isPrefixOf] at hpre
      | cons a as => rfl
    cases fuel with
    | zero => rfl
    | succ f =>
      simp only [pyReplaceAux, hne, hpre, Bool.false_eq_true, if_false]
      rw [ih f hrest]

theorem pyReplace_not_contains (s old new : String)
    (h : strContains s old = false) : pyReplace s old new = s := by
  unfold pyReplace
  rw [pyReplaceAux_not_contains old.data new.data s.data.length s.data h]

/-! ## Claim theorems -/

/-- C2: applying the substitution map replaces all pairs in map order
successively against the same in-memory buffer, so the final content equals
the left fold of single-pair replacement over the ordered pair list starting
from the original content; and a later pair may further transform text
inserted by an earlier pair (witnessed by the pair list `a↦b`, `b↦c` sending
`"a"` to `"c"`). -/
theorem applyReplacements_eq_foldl :
    (∀ (content : String) (reps : List (String × String)),
      applyReplacements content reps =
        reps.foldl (fun c p => pyReplace c p.1 p.2) content) ∧
    applyReplacements "a" [("a", "b"), ("b", "c")] = "c" := by
  constructor
  · intro content reps
    induction reps generalizing content with
    | nil => rfl
    | cons p rest ih =>
      cases p
      simp only [applyReplacements, List.foldl]
      exact ih _
  · decide

/-- C3 as stated is refuted at the KELVIN SIGN `U+212A`: the source lowercases
first (`U+212A` lowers to `k`, which the class keeps), so the computed default
for `project_name = "\u212A"` is `"k"`, while mapping outside-class characters
to `'-'` first and lowercasing afterwards computes `"-"`. -/
theorem defaultPackageName_order_counterexample :
    defaultPackageName "\u212A" = "k" ∧
    spec_defaultPackageName "\u212A" = "-" ∧
    ¬defaultPackageName "\u212A" = spec_defaultPackageName "\u212A" := by
  decide

/-- C3 amended: for every project_name consisting of ASCII characters, the
computed default for `package_name` equals the result of mapping every
character outside `[a-zA-Z0-9_-]` to `'-'` and then lowercasing; in
particular `"My Cool App!"` yields `"my-cool-app-"`. -/
theorem defaultPackageName_eq_spec_ascii :
    (∀ project_name : String, (∀ c ∈ project_name.data, c.toNat < 128) →
      defaultPackageName project_name = spec_defaultPackageName project_name) ∧
    defaultPackageName "My Cool App!" = "my-cool-app-" := by
  constructor
  · intro s hs
    unfold defaultPackageName spec_defaultPackageName
    rw [List.map_map, List.map_map]
    have hmap : s.data.map (sanitizeChar ∘ charLower)
        = s.data.map (charLower ∘ sanitizeChar) :=
      List.map_congr_left
        (fun c hc => sanitizeChar_charLower_ascii c (hs c hc))
    rw [hmap]
  · decide

/-- C3 amended, witnessed at the all-ASCII `"My Cool App!"`. -/
theorem defaultPackageName_eq_spec_ascii_witness :
    defaultPackageName "My Cool App!" = spec_defaultPackageName "My Cool App!" :=
  defaultPackageName_eq_spec_ascii.1 "My Cool App!" (by decide)

/-- C6: on a file consisting only of `{PROJECT_NAME}` and `{PACKAGE_NAME}`
twice each, the full substitution map built from `project_name = "Foo"`,
`package_name = "bar"` and the remaining keys at their defaults yields exactly
`Foo` and `bar` at the former token positions, the legacy-literal pairs
altering nothing (for any current year, which only fixes the `year` value). -/
theorem applyReplacements_token_only_file (year : String) :
    applyReplacements "{PROJECT_NAME}{PACKAGE_NAME}{PROJECT_NAME}{PACKAGE_NAME}"
      (buildReplacements
        ⟨"Foo", "bar", "ethereum", "Ethereum Foundation",
          "security@ethereum.org", year⟩) = "FoobarFoobar" := by
  simp only [buildReplacements, applyReplacements]
  rw [show pyReplace "{PROJECT_NAME}{PACKAGE_NAME}{PROJECT_NAME}{PACKAGE_NAME}"
        "{PROJECT_NAME}" "Foo" = "Foo{PACKAGE_NAME}Foo{PACKAGE_NAME}" from by decide]
  rw [show pyReplace "Foo{PACKAGE_NAME}Foo{PACKAGE_NAME}" "{PACKAGE_NAME}" "bar"
        = "FoobarFoobar" from by decide]
  rw [pyReplace_not_contains _ "{GITHUB_ORG}" _ (by decide)]
  rw [pyReplace_not_contains _ "{AUTHOR_NAME}" _ (by decide)]
  rw [pyReplace_not_contains _ "{AUTHOR_EMAIL}" _ (by decide)]
  rw [pyReplace_not_contains _ "{YEAR}" _ (by decide)]
  rw [pyReplace_not_contains _ "ethereum-protocol-specs" _ (by decide)]
  rw [pyReplace_not_contains _ "ethereum-specs" _ (by decide)]
  rw [pyReplace_not_contains _ "Your Name" _ (by decide)]
  rw [pyReplace_not_contains _ "your.email@example.com" _ (by decide)]
  rw [pyReplace_not_contains _ "Ethereum Foundation" _ (by decide)]
  rw [pyReplace_not_contains _ "2025" _ (by decide)]
  rw [pyReplace_not_contains _ "2024" _ (by decide)]
  rw [pyReplace_not_contains _ "ethereum/ethereum-protocol-specs" _ (by decide)]
  rw [pyReplace_not_contains _ "https://github.com/ethereum/..." _ (by decide)]

/-- C9 as stated is refuted by an empty working-directory name (`Path.cwd().name`
is `''` at the filesystem root): with all-empty responses, `project_name`
collects to the empty string. -/
theorem get_user_input_empty_counterexample :
    (get_user_input ["", "", "", "", "", ""] "" 2026).project_name = "" := by
  decide

/-- C9 amended: for every sequence of user responses, provided the current
working directory name is non-empty, each of the six collected keys holds a
non-empty string value (user-supplied trimmed response or default). -/
theorem get_user_input_nonempty (responses : List String) (cwdName : String)
    (currentYear : Nat) (h : cwdName ≠ "") :
    (get_user_input responses cwdName currentYear).project_name ≠ "" ∧
    (get_user_input responses cwdName currentYear).package_name ≠ "" ∧
    (get_user_input responses cwdName currentYear).github_org ≠ "" ∧
    (get_user_input responses cwdName currentYear).author_name ≠ "" ∧
    (get_user_input responses cwdName currentYear).author_email ≠ "" ∧
    (get_user_input responses cwdName currentYear).year ≠ "" := by
  simp only [get_user_input]
  refine ⟨pyOr_ne_empty _ _ h, ?_, pyOr_ne_empty _ _ (by decide),
    pyOr_ne_empty _ _ (by decide), pyOr_ne_empty _ _ (by decide),
    pyOr_ne_empty _ _ (toString_nat_ne_empty _)⟩
  exact pyOr_ne_empty _ _
    (defaultPackageName_ne_empty _ (pyOr_ne_empty _ _ h))

/-- C9 amended, witnessed at a concrete non-root working directory. -/
theorem get_user_input_nonempty_witness :
    (get_user_input [] "specs" 2026).project_name ≠ "" ∧
    (get_user_input [] "specs" 2026).package_name ≠ "" ∧
    (get_user_input [] "specs" 2026).github_org ≠ "" ∧
    (get_user_input [] "specs" 2026).author_name ≠ "" ∧
    (get_user_input [] "specs" 2026).author_email ≠ "" ∧
    (get_user_input [] "specs" 2026).year ≠ "" :=
  get_user_input_nonempty [] "specs" 2026 (by decide)

/-- C10: `validate_block_gas` returns `true` exactly when the block's
`gas_used` does not exceed its `gas_limit`; in particular the comparison is
non-strict, so a block with `gas_used = gas_limit` is valid. -/
theorem validate_block_gas_iff (block : Block) :
    (validate_block_gas block = true ↔ block.gas_used ≤ block.gas_limit) ∧
    (block.gas_used = block.gas_limit → validate_block_gas block = true) := by
  constructor
  · simp [validate_block_gas]
  · intro h
    simp [validate_block_gas, h]

/-- C10, witnessed at a concrete block with `gas_used = gas_limit`. -/
theorem validate_block_gas_iff_witness :
    validate_block_gas ⟨1, List.replicate 32 0, rfl, [], 5, 5⟩ = true :=
  (validate_block_gas_iff ⟨1, List.replicate 32 0, rfl, [], 5, 5⟩).2 rfl

/-- C1: when `pyproject.toml` is missing, or exists but does not contain the
literal `{PACKAGE_NAME}` marker, `main` exits with status 1 with the
filesystem byte-identical; the result does not depend on the responses or on
an interrupt, since the refusal happens before any input is collected. -/
theorem mainRun_precondition_refusal (fs : FS) (interrupted : Bool)
    (responses : List String) (cwdName : String) (currentYear : Nat)
    (h : fsGet fs "pyproject.toml" = none ∨
      ∃ content, fsGet fs "pyproject.toml" = some (.ok content) ∧
        strContains content "{PACKAGE_NAME}" = false) :
    mainRun fs interrupted responses cwdName currentYear = (1, fs) := by
  unfold mainRun
  rcases h with h | ⟨content, hc, hm⟩
  · rw [h]
  · rw [hc]
    simp [hm]

/-- C1, witnessed on the empty filesystem, where `pyproject.toml` is missing. -/
theorem mainRun_precondition_refusal_witness :
    mainRun [] false [] "specs" 2026 = (1, []) :=
  mainRun_precondition_refusal [] false [] "specs" 2026 (Or.inl rfl)

/-- C7: with the preconditions satisfied, any confirmation response whose
trimmed, lowercased form is none of the affirmative answers `''`, `'y'`,
`'yes'` cancels the run: the process exits with status 0 and the filesystem is
unchanged. -/
theorem mainRun_cancel (fs : FS) (responses : List String) (cwdName : String)
    (currentYear : Nat) (content : String)
    (hget : fsGet fs "pyproject.toml" = some (.ok content))
    (hmark : strContains content "{PACKAGE_NAME}" = true)
    (hneg : isAffirmative (confirmAnswer responses) = false) :
    mainRun fs false responses cwdName currentYear = (0, fs) := by
  unfold mainRun
  rw [hget]
  simp [hmark, hneg]

/-- C7, witnessed with the response `n` at the confirmation prompt. -/
theorem mainRun_cancel_witness :
    mainRun [("pyproject.toml", Entry.ok "name = \x7bPACKAGE_NAME\x7d")] false
      ["", "", "", "", "", "", "n"] "specs" 2026 =
      (0, [("pyproject.toml", Entry.ok "name = \x7bPACKAGE_NAME\x7d")]) :=
  mainRun_cancel _ _ "specs" 2026 "name = \x7bPACKAGE_NAME\x7d" (by decide)
    (by decide) (by decide)

/-- C8: a keyboard interrupt during input collection makes the process exit
with status 0 and leaves the filesystem untouched, since mutation only begins
after the collected configuration is confirmed. -/
theorem mainRun_interrupt (fs : FS) (responses : List String) (cwdName : String)
    (currentYear : Nat) (content : String)
    (hget : fsGet fs "pyproject.toml" = some (.ok content))
    (hmark : strContains content "{PACKAGE_NAME}" = true) :
    mainRun fs true responses cwdName currentYear = (0, fs) := by
  unfold mainRun
  rw [hget]
  simp [hmark]

/-- C8, witnessed on a one-file template filesystem. -/
theorem mainRun_interrupt_witness :
    mainRun [("pyproject.toml", Entry.ok "name = \x7bPACKAGE_NAME\x7d")] true
      [] "specs" 2026 =
      (0, [("pyproject.toml", Entry.ok "name = \x7bPACKAGE_NAME\x7d")]) :=
  mainRun_interrupt _ [] "specs" 2026 "name = \x7bPACKAGE_NAME\x7d" (by decide)
    (by decide)

theorem fsGet_fsSet_ne (fs : FS) (p q : String) (e : Entry) (h : q ≠ p) :
    fsGet (fsSet fs p e) q = fsGet fs q := by
  induction fs with
  | nil => rfl
  | cons kv rest ih =>
    obtain ⟨k, ev⟩ := kv
    simp only [fsSet, fsGet]
    by_cases hk : k = q
    · have hkp : ¬k = p := fun hp => h (hk.symm.trans hp)
      rw [if_pos hk, if_pos hk, if_neg hkp]
    · rw [if_neg hk, if_neg hk]
      exact ih

theorem fsGet_fsSet_self (fs : FS) (p : String) (e : Entry) :
    fsGet (fsSet fs p e) p = (fsGet fs p).map (fun _ => e) := by
  induction fs with
  | nil => rfl
  | cons kv rest ih =>
    obtain ⟨k, ev⟩ := kv
    simp only [fsSet, fsGet]
    by_cases hk : k = p
    · rw [if_pos hk, if_pos hk, if_pos hk]
      rfl
    · rw [if_neg hk, if_neg hk]
      exact ih

theorem processFile_outcome (fs : FS) (reps : List (String × String))
    (p : String) : (processFile fs reps p).1 = expectedOutcome (fsGet fs p) := by
  unfold processFile expectedOutcome
  cases fsGet fs p with
  | none => rfl
  | some e => cases e <;> rfl

theorem fsGet_processFile (fs : FS) (reps : List (String × String))
    (p q : String) :
    fsGet (processFile fs reps p).2 q =
      if q = p then procEntry reps (fsGet fs q) else fsGet fs q := by
  by_cases hq : q = p
  · subst hq
    rw [if_pos rfl]
    unfold processFile
    cases hp : fsGet fs q with
    | none => simp [procEntry, hp]
    | some e =>
      cases e with
      | err m => simp [procEntry, hp]
      | ok c =>
        rw [fsGet_fsSet_self, hp]
        rfl
  · rw [if_neg hq]
    unfold processFile
    cases hp : fsGet fs p with
    | none => rfl
    | some e =>
      cases e with
      | err m => rfl
      | ok c => exact fsGet_fsSet_ne fs p q _ hq

theorem runMainPass_spec (reps : List (String × String)) (paths : List String)
    (fs : FS) (hnd : paths.Nodup) :
    (runMainPass reps paths fs).1 =
      paths.map (fun p => (p, expectedOutcome (fsGet fs p))) ∧
    ∀ q, fsGet (runMainPass reps paths fs).2 q =
      if q ∈ paths then procEntry reps (fsGet fs q) else fsGet fs q := by
  induction paths generalizing fs with
  | nil => exact ⟨rfl, fun q => by simp [runMainPass]⟩
  | cons p rest ih =>
    rw [List.nodup_cons] at hnd
    obtain ⟨hp_rest, hnd_rest⟩ := hnd
    have hagree : ∀ q, q ≠ p →
        fsGet (processFile fs reps p).2 q = fsGet fs q := by
      intro q hq
      rw [fsGet_processFile, if_neg hq]
    obtain ⟨ih1, ih2⟩ := ih (processFile fs reps p).2 hnd_rest
    constructor
    · simp only [runMainPass]
      rw [processFile_outcome, ih1]
      have hmap : rest.map
            (fun q => (q, expectedOutcome (fsGet (processFile fs reps p).2 q)))
          = rest.map (fun q => (q, expectedOutcome (fsGet fs q))) :=
        List.map_congr_left
          (fun q hq => by rw [hagree q (fun h => hp_rest (h ▸ hq))])
      rw [hmap, List.map_cons]
    · intro q
      simp only [runMainPass]
      rw [ih2 q]
      by_cases hq : q ∈ rest
      · rw [if_pos hq, if_pos (List.mem_cons_of_mem p hq)]
        rw [hagree q (fun h => hp_rest (h ▸ hq))]
      · rw [if_neg hq, fsGet_processFile]
        by_cases hqp : q = p
        · rw [if_pos hqp, if_pos (by rw [hqp]; exact List.mem_cons_self p rest)]
        · rw [if_neg hqp, if_neg (by simp [hqp, hq])]

theorem runUrlPass_spec (url : String) (paths : List String) (fs : FS)
    (hnd : paths.Nodup)
    (herr : ∀ p ∈ paths, isErrEntry (fsGet fs p) = false) :
    (runUrlPass url paths fs).2 = none ∧
    ∀ q, fsGet (runUrlPass url paths fs).1 q =
      if q ∈ paths then urlEntry url (fsGet fs q) else fsGet fs q := by
  induction paths generalizing fs with
  | nil => exact ⟨rfl, fun q => by simp [runUrlPass]⟩
  | cons p rest ih =>
    rw [List.nodup_cons] at hnd
    obtain ⟨hp_rest, hnd_rest⟩ := hnd
    cases hp : fsGet fs p with
    | none =>
      have hstep : runUrlPass url (p :: rest) fs = runUrlPass url rest fs := by
        simp only [runUrlPass]
        rw [hp]
      obtain ⟨ih1, ih2⟩ :=
        ih fs hnd_rest (fun q hq => herr q (List.mem_cons_of_mem p hq))
      rw [hstep]
      refine ⟨ih1, fun q => ?_⟩
      rw [ih2 q]
      by_cases hq : q ∈ rest
      · rw [if_pos hq, if_pos (List.mem_cons_of_mem p hq)]
      · rw [if_neg hq]
        by_cases hqp : q = p
        · rw [if_pos (by rw [hqp]; exact List.mem_cons_self p rest)]
          rw [hqp, hp]
          rfl
        · rw [if_neg (by simp [hqp, hq])]
    | some e =>
      cases e with
      | err m =>
        have hc := herr p (List.mem_cons_self p rest)
        rw [hp] at hc
        simp [isErrEntry] at hc
      | ok c =>
        have hstep : runUrlPass url (p :: rest) fs = runUrlPass url rest
            (fsSet fs p (Entry.ok (pyReplace c "<repository-url>" url))) := by
          simp only [runUrlPass]
          rw [hp]
        have hagree : ∀ q, q ≠ p →
            fsGet (fsSet fs p (Entry.ok (pyReplace c "<repository-url>" url))) q
              = fsGet fs q :=
          fun q hq => fsGet_fsSet_ne fs p q _ hq
        have herr' : ∀ q ∈ rest,
            isErrEntry (fsGet
              (fsSet fs p (Entry.ok (pyReplace c "<repository-url>" url))) q)
              = false := by
          intro q hq
          rw [hagree q (fun h => hp_rest (h ▸ hq))]
          exact herr q (List.mem_cons_of_mem p hq)
        obtain ⟨ih1, ih2⟩ := ih _ hnd_rest herr'
        rw [hstep]
        refine ⟨ih1, fun q => ?_⟩
        rw [ih2 q]
        by_cases hq : q ∈ rest
        · rw [if_pos hq, if_pos (List.mem_cons_of_mem p hq)]
          rw [hagree q (fun h => hp_rest (h ▸ hq))]
        · rw [if_neg hq]
          by_cases hqp : q = p
          · rw [if_pos (by rw [hqp]; exact List.mem_cons_self p rest)]
            subst hqp
            rw [fsGet_fsSet_self, hp]
            rfl
          · rw [if_neg (by simp [hqp, hq]), hagree q hqp]

/-- C4: over the fixed target-file list, the main pass reports one outcome per
file in list order — a missing path yields `missing` with no write, a raising
read yields `failed` for that file only — and the final filesystem maps each
listed readable file to its substituted content while every missing or
raising entry (and every unlisted path) is untouched; no outcome halts the
remaining files. -/
theorem setup_project_main_pass (config : Config) (fs : FS) :
    (runMainPass (buildReplacements config) files_to_update fs).1 =
      files_to_update.map (fun p => (p, expectedOutcome (fsGet fs p))) ∧
    ∀ q, fsGet (runMainPass (buildReplacements config) files_to_update fs).2 q =
      if q ∈ files_to_update then
        procEntry (buildReplacements config) (fsGet fs q)
      else fsGet fs q :=
  runMainPass_spec (buildReplacements config) files_to_update fs (by decide)

/-- C5: the second pass, run by `setup_project` on the main pass's result,
replaces every occurrence of `<repository-url>` in `README.md` and
`docs/index.md` (when present) with the URL composed from `github_org` and
`package_name`, raises nothing when those entries are readable or absent,
applies no other substitution, and touches no other file. -/
theorem setup_project_url_pass (config : Config) (fs : FS)
    (h1 : isErrEntry (fsGet fs "README.md") = false)
    (h2 : isErrEntry (fsGet fs "docs/index.md") = false) :
    ((runUrlPass ("https://github.com/" ++ config.github_org ++ "/" ++
        config.package_name) urlFiles fs).2 = none ∧
      ∀ q, fsGet (runUrlPass ("https://github.com/" ++ config.github_org ++
          "/" ++ config.package_name) urlFiles fs).1 q =
        if q ∈ urlFiles then
          urlEntry ("https://github.com/" ++ config.github_org ++ "/" ++
            config.package_name) (fsGet fs q)
        else fsGet fs q) ∧
    ∀ g : FS, setup_project config g =
      runUrlPass ("https://github.com/" ++ config.github_org ++ "/" ++
        config.package_name) urlFiles
        (runMainPass (buildReplacements config) files_to_update g).2 := by
  refine ⟨runUrlPass_spec _ _ fs (by decide) ?_, fun g => rfl⟩
  intro p hp
  rcases List.mem_cons.mp hp with h | h
  · rw [h]
    exact h1
  · rw [List.mem_singleton.mp h]
    exact h2

/-- C5, witnessed on a filesystem holding only a `README.md` with the
sentinel. -/
theorem setup_project_url_pass_witness :
    (runUrlPass ("https://github.com/" ++ "acme" ++ "/" ++ "proj") urlFiles
      [("README.md", Entry.ok "clone <repository-url> now")]).2 = none :=
  ((setup_project_url_pass ⟨"P", "proj", "acme", "A", "a@b.c", "2026"⟩
      [("README.md", Entry.ok "clone <repository-url> now")]
      (by decide) (by decide)).1).1
